import Mathlib

/-!
Verification development for the `dircompare` repository
(`dircompare/__init__.py` and `dircompare/_d2hc.py`).

The rendering core (`DiffHtmlFormatter.getDiffLineNos`,
`DiffHtmlFormatter._wrap_code`, `CodeDiff.__init__`, `CodeDiff.getDiffDetails`,
`file2snippet`, `compare`) is translated below as executable Lean functions.
The line-alignment step delegated by `getDiffDetails` to the Python standard
library (`difflib._mdiff`, not part of this repository) is modelled from the
spec, as marked on each such definition.
-/

/-- Translation of one element of the `diffs` list consumed by
`DiffHtmlFormatter`: one aligned row
`((left_no, left_line), (right_no, right_line), change)` as produced for the
formatter.  A Python line number that is the empty string (absent side) is
`none`; an `int` line number `n` is `some n`. -/
structure MdiffRow where
  leftNo : Option Nat
  leftLine : String
  rightNo : Option Nat
  rightLine : String
  change : Bool
deriving DecidableEq

/-- Modelled from the spec: the `ChangeKind` enum of §3/§4.2. -/
inductive ChangeKind
  | unchanged
  | modified
  | added
  | deleted
deriving DecidableEq

/-- Modelled from the spec: the Classifier of §4.2, a pure function
`AlignedRow → ChangeKind` (`left=Absent` → `Added`; `right=Absent` →
`Deleted`; both present and `isChange=false` → `Unchanged`; both present and
`isChange=true` → `Modified`).  The code keeps this classification implicit
in the branch structure of its renderers. -/
def classify (r : MdiffRow) : ChangeKind :=
  match r.leftNo, r.rightNo with
  | none, _ => ChangeKind.added
  | some _, none => ChangeKind.deleted
  | some _, some _ => if r.change then ChangeKind.modified else ChangeKind.unchanged

/-- Translation of Python `str(no)` where `no` is either an `int` or the
empty string `''` standing for an absent side. -/
def pyStrNo : Option Nat → String
  | some n => toString n
  | none => ""

/-- Translation of the Python membership test `no in s` where `no` is an
`int` or the empty string `''` and `s` holds `int`s: the empty string is a
member of no set of integers. -/
def pyMemOpt : Option Nat → List Nat → Bool
  | some n, l => l.contains n
  | none, _ => false

/-- Translation of Python truthiness of the `line_filter` argument
(`None` and an empty collection are falsy). -/
def pyTruthyFilter : Option (List Nat) → Bool
  | some l => !l.isEmpty
  | none => false

/-- Translation of Python `str.strip()` with no argument: leading and
trailing whitespace characters are removed (the line texts at hand only
carry the ASCII whitespace space, tab, CR, LF that `Char.isWhitespace`
recognizes). -/
def pyStrip (s : String) : String :=
  String.mk (((s.data.dropWhile Char.isWhitespace).reverse.dropWhile Char.isWhitespace).reverse)

/-- Translation of Python `s.startswith(pre)`. -/
def pyStartswith (s pre : String) : Bool :=
  pre.data.isPrefixOf s.data

/-- Translation of the blank-or-comment test of `getDiffLineNos`
(`_d2hc.py` lines 205-206): the stripped line text is empty or starts with
`#` or `//`. -/
def blankOrComment (line : String) : Bool :=
  let content := pyStrip line
  content.data.isEmpty || pyStartswith content "#" || pyStartswith content "//"

/-- Helper for `formatCov`: scan the character list left to right, replacing
each occurrence of `marker` by `repl`; the fuel argument (instantiated with
the list length) only makes the recursion structural. -/
def replaceMarkerAux (marker repl : List Char) : Nat → List Char → List Char
  | _, [] => []
  | 0, l => l
  | fuel + 1, c :: cs =>
      if marker.isPrefixOf (c :: cs) then
        repl ++ replaceMarkerAux marker repl fuel (List.drop (marker.length - 1) cs)
      else
        c :: replaceMarkerAux marker repl fuel cs

/-- Translation of `no.format(cov=cls)` on the span templates of
`getDiffLineNos`: every occurrence of the placeholder `{cov}` (written
escaped here) is replaced by `cls`.  The templates and the inserted class
names contain no other brace, so Python `str.format` does exactly this. -/
def formatCov (s cls : String) : String :=
  String.mk (replaceMarkerAux "\x7bcov\x7d".data cls.data s.data.length s.data)

/-- Translation of the global `coverage_line_list` (`_d2hc.py` line 127) as a
value: `none` is the initial `None`; `some (missedLines, allLines)` is the
pair `({each.line for each in r[0]}, r[1])` set by `file2snippet`, whose
second component may itself be `None`. -/
abbrev CovLineList := List Nat × Option (List Nat)

/-- Translation of `need_coverage_draw = bool(coverage_line_list and
(coverage_line_list[1] is not None))` (`_d2hc.py` line 171); a non-empty
tuple is always truthy. -/
def needCoverageDraw : Option CovLineList → Bool
  | some (_, some _) => true
  | _ => false

/-- Translation of the right-side base span assigned to `no` by
`getDiffLineNos` (`_d2hc.py` lines 189-199) before the coverage block may
format it; `none` is Python `no = None` (both sides absent on a changed
row, never produced by the aligner). -/
def rightBaseSpan (r : MdiffRow) : Option String :=
  if r.change then
    match r.leftNo, r.rightNo with
    | some _, some rn =>
        some ("<span class=\"lineno_q lineno_rightchange \x7bcov\x7d\">" ++ toString rn ++ "</span>")
    | some _, none =>
        some "<span class=\"lineno_q lineno_rightdel \x7bcov\x7d\">  </span>"
    | none, some rn =>
        some ("<span class=\"lineno_q lineno_rightadd \x7bcov\x7d\">" ++ toString rn ++ "</span>")
    | none, none => none
  else
    some ("<span class=\"lineno_q \x7bcov\x7d\">" ++ pyStrNo r.rightNo ++ "</span>")

/-- Translation of one iteration of the loop of
`DiffHtmlFormatter.getDiffLineNos` (`_d2hc.py` lines 163-218): the gutter
span for one row, on the side selected by `isLeft`, given the global
`coverage_line_list` value and the formatter's `line_filter`. -/
def getDiffLineNosRow (isLeft : Bool) (cll : Option CovLineList)
    (line_filter : Option (List Nat)) (r : MdiffRow) : Option String :=
  let need_coverage_draw := needCoverageDraw cll
  if isLeft then
    if r.change then
      match r.leftNo, r.rightNo with
      | some ln, some _ =>
          some ("<span class=\"lineno_q lineno_leftchange\">" ++ toString ln ++ "</span>")
      | some ln, none =>
          some ("<span class=\"lineno_q lineno_leftdel\">" ++ toString ln ++ "</span>")
      | none, some _ =>
          some "<span class=\"lineno_q lineno_leftadd\">  </span>"
      | none, none => none
    else
      some ("<span class=\"lineno_q\">" ++ pyStrNo r.leftNo ++ "</span>")
  else
    let no := rightBaseSpan r
    if need_coverage_draw && r.change then
      if blankOrComment r.rightLine then no
      else if pyTruthyFilter line_filter && !(pyMemOpt r.rightNo (line_filter.getD [])) then no
      else
        match cll with
        | some (missedLines, some allLines) =>
            if pyMemOpt r.rightNo allLines && !(pyMemOpt r.rightNo missedLines) then
              no.map (fun s => formatCov s "lineno_coverage_hit")
            else
              no.map (fun s => formatCov s "lineno_coverage_miss")
        | _ => no
    else no

/-- Translation of `DiffHtmlFormatter.getDiffLineNos` over the whole `diffs`
list. -/
def getDiffLineNos (isLeft : Bool) (cll : Option CovLineList)
    (line_filter : Option (List Nat)) (diffs : List MdiffRow) : List (Option String) :=
  diffs.map (getDiffLineNosRow isLeft cll line_filter)

/-- Translation of the Python subscript `source[n - 1]` on the highlighted
buffer, where `n` is the line number: for `n = 0` this is `source[-1]`, the
last element; `none` is an `IndexError`. -/
def pyIdx (source : List (Nat × String)) (n : Nat) : Option (Nat × String) :=
  if n = 0 then source.getLast? else source.get? (n - 1)

/-- Translation of the body of the `try` in one iteration of
`DiffHtmlFormatter._wrap_code` (`_d2hc.py` lines 224-268): `some (i, t)` is
the yielded pair; `none` means an exception was raised and swallowed by the
bare `except: pass`, so nothing is yielded for the row (the bare `raise` of
the exhausted changed branches, and the `TypeError`/`IndexError` of the
unreachable malformed rows, all land here). -/
def wrapCodeRow (isLeft : Bool) (source : List (Nat × String)) (r : MdiffRow) :
    Option (Nat × String) :=
  if isLeft then
    if r.change then
      match r.leftNo, r.rightNo with
      | some ln, some _ =>
          if ln ≤ source.length then
            (pyIdx source ln).map (fun p => (p.1, "<span class=\"left_diff_change\">" ++ p.2 ++ "</span>"))
          else none
      | some ln, none =>
          if ln ≤ source.length then
            (pyIdx source ln).map (fun p => (p.1, "<span class=\"left_diff_del\">" ++ p.2 ++ "</span>"))
          else none
      | none, some _ =>
          some (1, "<span class=\"left_diff_add\">" ++ r.leftLine ++ "</span>")
      | none, none => none
    else
      match r.leftNo with
      | some ln => if ln ≤ source.length then pyIdx source ln else some (1, r.leftLine)
      | none => none
  else
    if r.change then
      match r.leftNo, r.rightNo with
      | some _, some rn =>
          if rn ≤ source.length then
            (pyIdx source rn).map (fun p => (p.1, "<span class=\"right_diff_change\">" ++ p.2 ++ "</span>"))
          else none
      | some _, none =>
          some (1, "<span class=\"right_diff_del\">" ++ r.rightLine ++ "</span>")
      | none, some rn =>
          if rn ≤ source.length then
            (pyIdx source rn).map (fun p => (p.1, "<span class=\"right_diff_add\">" ++ p.2 ++ "</span>"))
          else none
      | none, none => none
    else
      match r.rightNo with
      | some rn => if rn ≤ source.length then pyIdx source rn else some (1, r.rightLine)
      | none => none

/-- Translation of `DiffHtmlFormatter._wrap_code` (`_d2hc.py` lines
220-269): the opening `<pre>` marker, then for each row whatever the `try`
body yields (rows whose body raised are silently skipped), then the closing
marker. -/
def wrapCode (isLeft : Bool) (source : List (Nat × String)) (diffs : List MdiffRow) :
    List (Nat × String) :=
  (0, "<pre>") :: (diffs.filterMap (wrapCodeRow isLeft source) ++ [(0, "\n</pre>")])

/-- Translation of Python `line.replace(c, d)` for single characters, as
used by `expand_tabs` in `CodeDiff.getDiffDetails`. -/
def pyReplaceChar (c d : Char) (s : String) : String :=
  String.mk (s.data.map (fun x => if x = c then d else x))

/-- Translation of Python `str.expandtabs(tabsize)` for a positive tab size:
each tab becomes spaces up to the next multiple of `tabsize` in the running
column, which `\n` and `\r` reset to zero. -/
def expandTabsAux (tabSize : Nat) : List Char → Nat → List Char
  | [], _ => []
  | c :: cs, col =>
      if c = '\t' then
        let incr := tabSize - col % tabSize
        List.replicate incr ' ' ++ expandTabsAux tabSize cs (col + incr)
      else if c = '\n' || c = '\r' then
        c :: expandTabsAux tabSize cs 0
      else
        c :: expandTabsAux tabSize cs (col + 1)

/-- Translation of Python `line.rstrip('\n')`. -/
def rstripNewline (s : String) : String :=
  String.mk ((s.data.reverse.dropWhile (fun c => c = '\n')).reverse)

/-- Translation of the local `expand_tabs` of `CodeDiff.getDiffDetails`
(`_d2hc.py` lines 357-365): hide real spaces as NUL, expand tabs into
spaces, turn those spaces into tab characters, restore the hidden spaces
and strip the trailing newline. -/
def expand_tabs (tabSize : Nat) (line : String) : String :=
  let l1 := pyReplaceChar ' ' '\x00' line
  let l2 := String.mk (expandTabsAux tabSize l1.data 0)
  let l3 := pyReplaceChar ' ' '\t' l2
  rstripNewline (pyReplaceChar '\x00' ' ' l3)

/-- Helper for `pySplitNl`: split a character list at each newline,
accumulating the current piece in reverse. -/
def splitNlAux : List Char → List Char → List String
  | [], acc => [String.mk acc.reverse]
  | c :: cs, acc =>
      if c = '\n' then String.mk acc.reverse :: splitNlAux cs []
      else splitNlAux cs (c :: acc)

/-- Translation of Python `txt.split("\n")`: the pieces between newlines;
the empty string splits to `[""]`. -/
def pySplitNl (s : String) : List String :=
  splitNlAux s.data []

/-- Translation of the in-memory text branch of `CodeDiff.__init__`
(`_d2hc.py` lines 338 and 351): `[n + "\n" for n in txt.split("\n")]`. -/
def materialize (txt : String) : List String :=
  (pySplitNl txt).map (fun n => n ++ "\n")

/-- Modelled from the spec: one block of the line-level edit script of §4.1
(equal / replace / insert / delete), carried by block length; the
underlying edit-script computation itself is performed by
`difflib._mdiff`, which is Python standard library code outside this
repository. -/
inductive Op
  | equal (k : Nat)
  | delete (k : Nat)
  | insert (k : Nat)
  | replace (m n : Nat)
deriving DecidableEq

/-- Number of left-side lines a block consumes. -/
def Op.leftLen : Op → Nat
  | .equal k => k
  | .delete k => k
  | .insert _ => 0
  | .replace m _ => m

/-- Number of right-side lines a block consumes. -/
def Op.rightLen : Op → Nat
  | .equal k => k
  | .delete _ => 0
  | .insert k => k
  | .replace _ n => n

/-- Total left-side lines consumed by a script. -/
def scriptLeftLen (ops : List Op) : Nat := (ops.map Op.leftLen).sum

/-- Total right-side lines consumed by a script. -/
def scriptRightLen (ops : List Op) : Nat := (ops.map Op.rightLen).sum

/-- Modelled from the spec: rows of a pure deletion run; the absent right
side is the `('', '\n')` pair `difflib._mdiff` emits for a missing side.
Line numbers continue 1-based from the `la` lines already consumed. -/
def delRows (la : Nat) : List String → List MdiffRow
  | [] => []
  | x :: xs => ⟨some (la + 1), x, none, "\n", true⟩ :: delRows (la + 1) xs

/-- Modelled from the spec: rows of a pure addition run. -/
def addRows (lb : Nat) : List String → List MdiffRow
  | [] => []
  | y :: ys => ⟨none, "\n", some (lb + 1), y, true⟩ :: addRows (lb + 1) ys

/-- Modelled from the spec: rows of a `replace` block (§4.1) — pair
`left[i]` with `right[i]` while both sides last, marking `isChange=true`;
the exhausted side of the remaining rows is `Absent`. -/
def replRows : Nat → Nat → List String → List String → List MdiffRow
  | la, lb, x :: xs, y :: ys =>
      ⟨some (la + 1), x, some (lb + 1), y, true⟩ :: replRows (la + 1) (lb + 1) xs ys
  | la, _, xs, [] => delRows la xs
  | _, lb, [], ys => addRows lb ys

/-- Modelled from the spec: rows of an `equal` block (§4.1) — one row per
line pair with `isChange=false` (both sides of a valid script have the
same length here). -/
def equalRows : Nat → Nat → List String → List String → List MdiffRow
  | la, lb, x :: xs, y :: ys =>
      ⟨some (la + 1), x, some (lb + 1), y, false⟩ :: equalRows (la + 1) (lb + 1) xs ys
  | _, _, _, _ => []

/-- Modelled from the spec: the Aligner of §4.1 mapping an edit script over
the two line sequences to the ordered `DiffResult` row sequence, blocks in
script order. -/
def alignRows : Nat → Nat → List String → List String → List Op → List MdiffRow
  | _, _, _, _, [] => []
  | la, lb, a, b, Op.equal k :: rest =>
      equalRows la lb (a.take k) (b.take k) ++ alignRows (la + k) (lb + k) (a.drop k) (b.drop k) rest
  | la, lb, a, b, Op.delete k :: rest =>
      replRows la lb (a.take k) [] ++ alignRows (la + k) lb (a.drop k) b rest
  | la, lb, a, b, Op.insert k :: rest =>
      replRows la lb [] (b.take k) ++ alignRows la (lb + k) a (b.drop k) rest
  | la, lb, a, b, Op.replace m n :: rest =>
      replRows la lb (a.take m) (b.take n) ++ alignRows (la + m) (lb + n) (a.drop m) (b.drop n) rest

/-- Length of the longest common prefix of two line sequences. -/
def commonPrefixLen : List String → List String → Nat
  | x :: xs, y :: ys => if x = y then commonPrefixLen xs ys + 1 else 0
  | _, _ => 0

/-- Modelled from the spec: a deterministic instance of the "underlying
edit-script computation" of §4.1 (performed in the code by
`difflib._mdiff`, outside this repository): take the longest common prefix
and suffix as `equal` blocks and classify the middle as `insert`, `delete`
or `replace`. -/
def computeOpcodes (a b : List String) : List Op :=
  let p := commonPrefixLen a b
  let a1 := a.drop p
  let b1 := b.drop p
  let s := commonPrefixLen a1.reverse b1.reverse
  let m := a1.length - s
  let n := b1.length - s
  (if 0 < p then [Op.equal p] else []) ++
    (if m = 0 then (if n = 0 then [] else [Op.insert n])
     else if n = 0 then [Op.delete m] else [Op.replace m n]) ++
    (if 0 < s then [Op.equal s] else [])

/-- Modelled from the spec: the full Aligner — edit script computation plus
row emission (§4.1). -/
def alignModel (a b : List String) : List MdiffRow :=
  alignRows 0 0 a b (computeOpcodes a b)

/-- Translation of `CodeDiff.getDiffDetails` (`_d2hc.py` lines 354-378):
expand tabs on both line sequences, then produce the aligned rows; the
`difflib._mdiff` call is replaced by the spec-modelled Aligner. -/
def getDiffDetailsModel (fromlines tolines : List String) : List MdiffRow :=
  alignModel (fromlines.map (expand_tabs 8)) (tolines.map (expand_tabs 8))

/-- Left projection of a row sequence: the texts of the rows whose left
side is present, in row order. -/
def projLeft (rows : List MdiffRow) : List String :=
  rows.filterMap (fun r => match r.leftNo with | some _ => some r.leftLine | none => none)

/-- Right projection of a row sequence: the texts of the rows whose right
side is present, in row order. -/
def projRight (rows : List MdiffRow) : List String :=
  rows.filterMap (fun r => match r.rightNo with | some _ => some r.rightLine | none => none)

/-- Coverage annotation outcome on a right-gutter span: the Hit class, the
Miss class, or no coverage class. -/
inductive CovMark
  | hit
  | miss
  | none
deriving DecidableEq

/-- Effect of a `CovMark` on a gutter span template: `hit`/`miss` format
the `{cov}` placeholder with the corresponding CSS class, `none` leaves the
template untouched. -/
def applyMark (t : String) : CovMark → String
  | .hit => formatCov t "lineno_coverage_hit"
  | .miss => formatCov t "lineno_coverage_miss"
  | .none => t

/-- Modelled from the spec: the classification function of §4.4 as claim C1
states it (no line filter configured): a blank or comment-prefixed line is
never annotated; otherwise a line in `missedLines` is `Miss`, else a line
in `allLines` is `Hit`, else no coverage class. -/
def specCovMark (missedLines allLines : List Nat) (r : MdiffRow) : CovMark :=
  if blankOrComment r.rightLine then CovMark.none
  else if pyMemOpt r.rightNo missedLines then CovMark.miss
  else if pyMemOpt r.rightNo allLines then CovMark.hit
  else CovMark.none

/-- Classification the code actually implements (`_d2hc.py` lines 202-214,
no line filter configured): a blank or comment-prefixed line is never
annotated; otherwise a line in `allLines` and not in `missedLines` is
`Hit`; every other line — including one absent from both sets — is
`Miss`. -/
def amendedCovMark (missedLines allLines : List Nat) (r : MdiffRow) : CovMark :=
  if blankOrComment r.rightLine then CovMark.none
  else if pyMemOpt r.rightNo allLines && !(pyMemOpt r.rightNo missedLines) then CovMark.hit
  else CovMark.miss

/-- Translation of Python truthiness of the `cobertura_xml` argument of
`file2snippet`: a non-`None`, non-empty string. -/
def pyTruthyStrOpt : Option String → Bool
  | some s => !(s == "")
  | none => false

/-- External collaborators of the rendering core, passed as functions: the
coverage-report parser behind `coverage_xml_parse` (already composed with
the set extraction of `_d2hc.py` line 445), the file reader of
`CodeDiff.__init__`, and the pygments tokenizer producing the numbered
highlighted buffer consumed by `_wrap_code`. -/
structure Collab where
  covParse : String → String → Option String → Option CovLineList
  readLines : String → List String
  highlight : String → List (Nat × String)

/-- Output of one `file2snippet` call, as the data the HTML fragment is
assembled from: both gutter lists and both wrapped code panes. -/
structure Snippet where
  leftNos : List (Option String)
  rightNos : List (Option String)
  leftCode : List (Nat × String)
  rightCode : List (Nat × String)
deriving DecidableEq

/-- Translation of `CodeDiff.format` as driven by `file2snippet`
(`_d2hc.py` lines 380-427 and 460-463): read both files, diff them, and
render both panes; `g` is the current value of the module-global
`coverage_line_list` read by `getDiffLineNos`. -/
def renderSnippet (ext : Collab) (file1 file2 : String) (line_filter : Option (List Nat))
    (g : Option CovLineList) : Snippet :=
  let fromlines := ext.readLines file1
  let tolines := ext.readLines file2
  let diffs := getDiffDetailsModel fromlines tolines
  { leftNos := getDiffLineNos true g line_filter diffs
  , rightNos := getDiffLineNos false g line_filter diffs
  , leftCode := wrapCode true (ext.highlight (String.join fromlines)) diffs
  , rightCode := wrapCode false (ext.highlight (String.join tolines)) diffs }

/-- Translation of `file2snippet` (`_d2hc.py` lines 435-463) with the
module-global `coverage_line_list` made explicit: the call receives the
global's current value `g` and returns the rendered snippet together with
the global's value after the call.  The global is (re)assigned only when
`cobertura_xml` is truthy and the parse returns an entry; it is never
reset. -/
def file2snippetM (ext : Collab) (file1 file2 : String) (root_dir : Option String)
    (cobertura_xml : Option String) (line_filter : Option (List Nat))
    (g : Option CovLineList) : Snippet × Option CovLineList :=
  let g1 :=
    if pyTruthyStrOpt cobertura_xml then
      match ext.covParse (cobertura_xml.getD "") file2 root_dir with
      | some r => some r
      | Option.none => g
    else g
  (renderSnippet ext file1 file2 line_filter g1, g1)

/-- Translation of the per-file loop of `compare` (`__init__.py` lines
80-100): every branch calls `file2snippet(x, y, coverage_xml)` with
`coverage_xml` as the third positional argument, which binds the
`root_dir` parameter of `file2snippet` while its `cobertura_xml` parameter
keeps its default `None`; the global threads through the calls. -/
def compareRun (ext : Collab) (coverage_xml : Option String) :
    List (String × String) → Option CovLineList → List Snippet × Option CovLineList
  | [], g => ([], g)
  | (f1, f2) :: rest, g =>
      let res := file2snippetM ext f1 f2 coverage_xml Option.none Option.none g
      let recRes := compareRun ext coverage_xml rest res.2
      (res.1 :: recRes.1, recRes.2)

/-- Concrete external collaborators used by the counterexample runs: a
coverage parser whose report instruments and misses line 1, a reader with
fixed one-line files, and a pass-through highlighter. -/
def ext0 : Collab where
  covParse := fun _ _ _ => some ([1], some [1])
  readLines := fun f =>
    if f = "A" then ["a\n"]
    else if f = "B" then ["b\n"]
    else if f = "C" then ["x\n"]
    else if f = "D" then ["y\n"]
    else if f = "E" then ["u\n"]
    else ["v\n"]
  highlight := fun code => [(1, code)]

example : alignModel ["p", "q"] ["p2"] =
    [⟨some 1, "p", some 1, "p2", true⟩, ⟨some 2, "q", none, "\n", true⟩] := by decide

example : alignModel ["a", "b", "c"] ["a", "x", "c"] =
    [⟨some 1, "a", some 1, "a", false⟩, ⟨some 2, "b", some 2, "x", true⟩,
     ⟨some 3, "c", some 3, "c", false⟩] := by decide

example : alignModel ["a"] ["a", "b"] =
    [⟨some 1, "a", some 1, "a", false⟩, ⟨none, "\n", some 2, "b", true⟩] := by decide

example : materialize "" = ["\n"] := by decide

example : getDiffDetailsModel (materialize "a") (materialize "a") =
    [⟨some 1, "a", some 1, "a", false⟩] := by decide

example : getDiffLineNosRow false (some ([1], some [1])) none
    ⟨some 1, "x", some 1, "y", true⟩ =
    some "<span class=\"lineno_q lineno_rightchange lineno_coverage_miss\">1</span>" := by decide

example : getDiffLineNosRow false none none ⟨some 1, "x", some 1, "y", true⟩ =
    some "<span class=\"lineno_q lineno_rightchange \x7bcov\x7d\">1</span>" := by decide

example : wrapCode true [(1, "H")] [⟨some 2, "q", some 2, "q2", true⟩] =
    [(0, "<pre>"), (0, "\n</pre>")] := by decide

theorem strAppendAssoc (a b c : String) : a ++ b ++ c = a ++ (b ++ c) := by
  apply String.ext
  simp [String.data_append, List.append_assoc]

/-- C10: an in-memory empty string materializes as exactly the single line
`"\n"` (per `CodeDiff.__init__`), never as a zero-line sequence, so an
empty-string side always contributes one line to the diff. -/
theorem c10_empty_text_one_line :
    materialize "" = ["\n"] ∧ (materialize "").length = 1 := by decide

/-- C4: the per-file loop of `compare` passes `coverage_xml` as the third
positional argument of `file2snippet`, which binds `root_dir` while
`cobertura_xml` keeps its default `None`; therefore a run with a coverage
report path and a run with `None` produce identical snippets and final
global state — the `coverage_xml` parameter never influences the rendered
result. -/
theorem c4_coverage_parameter_inert (ext : Collab) (files : List (String × String))
    (p : String) (g : Option CovLineList) :
    compareRun ext (some p) files g = compareRun ext Option.none files g := by
  induction files generalizing g with
  | nil => rfl
  | cons f rest ih =>
      cases f with
      | mk f1 f2 =>
          simp [compareRun, file2snippetM, pyTruthyStrOpt, ih]

/-- C1 (counterexample): under loaded coverage data with `allLines = {2}`
and `missedLines = {}`, the changed right-side row for line 5 (text `x`,
neither blank nor a comment, in neither set) does not carry the
classification the spec states: the spec classification yields no coverage
class, but the rendered gutter span carries the Miss class. -/
theorem c1_counterexample :
    getDiffLineNosRow false (some ([], some [2])) Option.none
        ⟨some 5, "old", some 5, "x", true⟩ ≠
      (rightBaseSpan ⟨some 5, "old", some 5, "x", true⟩).map
        (fun t => applyMark t (specCovMark [] [2] ⟨some 5, "old", some 5, "x", true⟩)) := by
  decide

/-- C1 (amended): for every changed right-side row rendered with coverage
data loaded (and no line filter configured), the right-gutter span equals
the base span template with the code's classification applied: no coverage
class if the line's trimmed text is empty or starts with `#` or `//`;
otherwise the Hit class if the line number is in `allLines` and not in
`missedLines`; otherwise the Miss class (in particular, a changed line in
neither set carries Miss, not no-class as the spec states). -/
theorem c1_coverage_classification_amended (missedLines allLines : List Nat)
    (r : MdiffRow) (h : r.change = true) :
    getDiffLineNosRow false (some (missedLines, some allLines)) Option.none r =
      (rightBaseSpan r).map
        (fun t => applyMark t (amendedCovMark missedLines allLines r)) := by
  cases hb : blankOrComment r.rightLine with
  | true =>
      simp only [getDiffLineNosRow, needCoverageDraw, h, hb, amendedCovMark, if_true,
        Bool.and_self, if_false, Bool.false_eq_true]
      cases rightBaseSpan r <;> simp [applyMark]
  | false =>
      cases hm : pyMemOpt r.rightNo allLines && !(pyMemOpt r.rightNo missedLines) with
      | true =>
          simp [getDiffLineNosRow, needCoverageDraw, h, hb, hm, amendedCovMark,
            pyTruthyFilter, applyMark]
      | false =>
          simp [getDiffLineNosRow, needCoverageDraw, h, hb, hm, amendedCovMark,
            pyTruthyFilter, applyMark]

/-- C1 (witness): the amended classification evaluated on a concrete
changed row — line 5 instrumented and not missed renders the Hit class. -/
theorem c1_coverage_classification_amended_witness :
    getDiffLineNosRow false (some ([2], some [2, 5])) Option.none
        ⟨some 5, "old", some 5, "x", true⟩ =
      some "<span class=\"lineno_q lineno_rightchange lineno_coverage_hit\">5</span>" := by
  have h := c1_coverage_classification_amended [2] [2, 5]
    ⟨some 5, "old", some 5, "x", true⟩ rfl
  rw [h]
  decide

/-- Helper for C9: in every situation where the coverage block does not
format the span — coverage draw disabled, an unchanged row, a blank or
comment-prefixed line, or a filter-excluded line — `getDiffLineNos`
returns the base span template unchanged. -/
theorem getDiffLineNosRow_unformatted (cll : Option CovLineList) (lf : Option (List Nat))
    (r : MdiffRow)
    (h : needCoverageDraw cll = false ∨ r.change = false ∨
      blankOrComment r.rightLine = true ∨
      (pyTruthyFilter lf && !(pyMemOpt r.rightNo (lf.getD []))) = true) :
    getDiffLineNosRow false cll lf r = rightBaseSpan r := by
  rcases h with h | h | h | h
  · simp [getDiffLineNosRow, h]
  · simp [getDiffLineNosRow, h]
  · simp [getDiffLineNosRow, h]
  · simp [getDiffLineNosRow, h]

theorem append_placeholder (pre mid y : String) :
    pre ++ "\x7bcov\x7d" ++ mid ++ y = pre ++ "\x7bcov\x7d" ++ (mid ++ y) := by
  simp [strAppendAssoc]

/-- Helper for C9: every base right-gutter span template contains the
literal placeholder. -/
theorem rightBaseSpan_has_placeholder (r : MdiffRow) (s : String)
    (hs : rightBaseSpan r = some s) :
    ∃ pre post, s = pre ++ "\x7bcov\x7d" ++ post := by
  rcases r with ⟨l, lt, rno, rt, ch⟩
  cases ch with
  | false =>
      simp only [rightBaseSpan, Bool.false_eq_true, if_false, Option.some.injEq] at hs
      refine ⟨"<span class=\"lineno_q ", "\">" ++ pyStrNo rno ++ "</span>", ?_⟩
      rw [← hs]
      calc ("<span class=\"lineno_q " ++ "\x7bcov\x7d" ++ "\">") ++ pyStrNo rno ++ "</span>"
          = "<span class=\"lineno_q " ++ "\x7bcov\x7d" ++ ("\">" ++ pyStrNo rno) ++ "</span>" := by
            rw [append_placeholder]
        _ = "<span class=\"lineno_q " ++ "\x7bcov\x7d" ++ ("\">" ++ pyStrNo rno ++ "</span>") := by
            rw [append_placeholder]
  | true =>
      cases l with
      | none =>
          cases rno with
          | none => simp [rightBaseSpan] at hs
          | some rn =>
              simp only [rightBaseSpan, if_true, Option.some.injEq] at hs
              refine ⟨"<span class=\"lineno_q lineno_rightadd ",
                "\">" ++ toString rn ++ "</span>", ?_⟩
              rw [← hs]
              calc ("<span class=\"lineno_q lineno_rightadd " ++ "\x7bcov\x7d" ++ "\">") ++
                    toString rn ++ "</span>"
                  = "<span class=\"lineno_q lineno_rightadd " ++ "\x7bcov\x7d" ++
                      ("\">" ++ toString rn) ++ "</span>" := by rw [append_placeholder]
                _ = "<span class=\"lineno_q lineno_rightadd " ++ "\x7bcov\x7d" ++
                      ("\">" ++ toString rn ++ "</span>") := by rw [append_placeholder]
      | some ln =>
          cases rno with
          | none =>
              simp only [rightBaseSpan, if_true, Option.some.injEq] at hs
              refine ⟨"<span class=\"lineno_q lineno_rightdel ", "\">  </span>", ?_⟩
              rw [← hs]
              rfl
          | some rn =>
              simp only [rightBaseSpan, if_true, Option.some.injEq] at hs
              refine ⟨"<span class=\"lineno_q lineno_rightchange ",
                "\">" ++ toString rn ++ "</span>", ?_⟩
              rw [← hs]
              calc ("<span class=\"lineno_q lineno_rightchange " ++ "\x7bcov\x7d" ++ "\">") ++
                    toString rn ++ "</span>"
                  = "<span class=\"lineno_q lineno_rightchange " ++ "\x7bcov\x7d" ++
                      ("\">" ++ toString rn) ++ "</span>" := by rw [append_placeholder]
                _ = "<span class=\"lineno_q lineno_rightchange " ++ "\x7bcov\x7d" ++
                      ("\">" ++ toString rn ++ "</span>") := by rw [append_placeholder]

/-- C9: every right-pane gutter span that receives neither the Hit nor the
Miss class — because no coverage data is loaded, the row is unchanged, the
line is blank or comment-prefixed, or the line is excluded by the line
filter — contains the literal unformatted placeholder text left behind by
the never-invoked `str.format`, instead of a class from the documented CSS
class set. -/
theorem c9_placeholder_literal (cll : Option CovLineList) (lf : Option (List Nat))
    (r : MdiffRow) (s : String)
    (hcase : needCoverageDraw cll = false ∨ r.change = false ∨
      blankOrComment r.rightLine = true ∨
      (pyTruthyFilter lf && !(pyMemOpt r.rightNo (lf.getD []))) = true)
    (hs : getDiffLineNosRow false cll lf r = some s) :
    ∃ pre post, s = pre ++ "\x7bcov\x7d" ++ post := by
  rw [getDiffLineNosRow_unformatted cll lf r hcase] at hs
  exact rightBaseSpan_has_placeholder r s hs

/-- C9 (witness): the unchanged row for right line 3 with no coverage
loaded renders a gutter span containing the literal placeholder. -/
theorem c9_placeholder_literal_witness :
    ∃ pre post,
      "<span class=\"lineno_q \x7bcov\x7d\">3</span>" = pre ++ "\x7bcov\x7d" ++ post :=
  c9_placeholder_literal Option.none Option.none ⟨some 3, "a", some 3, "a", false⟩ _
    (Or.inl rfl) (by decide)

/-- C2 (counterexample): a changed row whose left line number 2 falls
outside a one-entry highlighted buffer is not emitted with its raw text as
the claim states — it is dropped entirely: the pane holds only the two
`pre` markers and no content row. -/
theorem c2_counterexample :
    wrapCode true [(1, "H")] [⟨some 2, "q", some 2, "q2", true⟩] =
      [(0, "<pre>"), (0, "\n</pre>")] ∧
    (wrapCode true [(1, "H")] [⟨some 2, "q", some 2, "q2", true⟩]).length = 2 := by
  decide

/-- C2 (amended): rendering never aborts the pane — every row is rendered
independently of the others — and a row whose line index on the rendered
side falls outside the highlighted buffer is handled by change kind: an
unchanged row falls back to its raw, unhighlighted text, while a changed
row is skipped entirely (dropped from the pane, nothing emitted for it). -/
theorem c2_out_of_range_amended (source : List (Nat × String)) (r : MdiffRow) :
    (∀ (isLeft : Bool) (pre post : List MdiffRow),
        wrapCode isLeft source (pre ++ r :: post) =
          (0, "<pre>") ::
            (pre.filterMap (wrapCodeRow isLeft source) ++
              ((wrapCodeRow isLeft source r).toList ++
                (post.filterMap (wrapCodeRow isLeft source) ++ [(0, "\n</pre>")])))) ∧
    (∀ ln, r.leftNo = some ln → r.change = false → source.length < ln →
        wrapCodeRow true source r = some (1, r.leftLine)) ∧
    (∀ rn, r.rightNo = some rn → r.change = false → source.length < rn →
        wrapCodeRow false source r = some (1, r.rightLine)) ∧
    (∀ ln, r.leftNo = some ln → r.change = true → source.length < ln →
        wrapCodeRow true source r = Option.none) ∧
    (∀ rn, r.rightNo = some rn → r.change = true → source.length < rn →
        wrapCodeRow false source r = Option.none) := by
  refine ⟨?_, ?_, ?_, ?_, ?_⟩
  · intro isLeft pre post
    simp only [wrapCode, List.filterMap_append, List.filterMap_cons]
    cases h : wrapCodeRow isLeft source r <;> simp [h]
  · intro ln h1 h2 h3
    have hle : ¬ ln ≤ source.length := Nat.not_le.mpr h3
    simp [wrapCodeRow, h1, h2, hle]
  · intro rn h1 h2 h3
    have hle : ¬ rn ≤ source.length := Nat.not_le.mpr h3
    simp [wrapCodeRow, h1, h2, hle]
  · intro ln h1 h2 h3
    have hle : ¬ ln ≤ source.length := Nat.not_le.mpr h3
    cases hr : r.rightNo <;> simp [wrapCodeRow, h1, h2, hr, hle]
  · intro rn h1 h2 h3
    have hle : ¬ rn ≤ source.length := Nat.not_le.mpr h3
    cases hl : r.leftNo <;> simp [wrapCodeRow, h1, h2, hl, hle]

/-- C2 (witness): an unchanged row for left line 1 against an empty
highlighted buffer falls back to its raw text. -/
theorem c2_out_of_range_amended_witness :
    wrapCodeRow true [] ⟨some 1, "x", some 1, "x", false⟩ = some (1, "x") :=
  (c2_out_of_range_amended [] ⟨some 1, "x", some 1, "x", false⟩).2.1 1 rfl rfl (by decide)

/-- C8 (counterexample): an invocation of `file2snippet` with a coverage
report sets the module-global `coverage_line_list`, and a later invocation
with no coverage argument renders differently under that inherited global
than it would from the initial (fresh) global — so module-level mutable
state set by one invocation alters the output of a later one. -/
theorem c8_counterexample :
    (file2snippetM ext0 "A" "B" Option.none (some "cov.xml") Option.none Option.none).2 =
      some ([1], some [1]) ∧
    (file2snippetM ext0 "C" "D" Option.none Option.none Option.none
        (file2snippetM ext0 "A" "B" Option.none (some "cov.xml") Option.none Option.none).2).1 ≠
      (file2snippetM ext0 "C" "D" Option.none Option.none Option.none Option.none).1 := by
  decide

/-- C8 (amended): besides the per-report-path coverage cache, the module
global `coverage_line_list` is process-wide mutable state: an invocation
without a coverage report leaves it unchanged (never resets it), an
invocation that parses a coverage report overwrites it, and the inherited
global value can alter the output of a later invocation that passes no
coverage at all. -/
theorem c8_global_state_amended :
    (∀ (ext : Collab) (f1 f2 : String) (rd : Option String) (lf : Option (List Nat))
        (g : Option CovLineList),
        (file2snippetM ext f1 f2 rd Option.none lf g).2 = g) ∧
    (∀ (ext : Collab) (f1 f2 : String) (rd : Option String) (xml : String)
        (lf : Option (List Nat)) (g : Option CovLineList) (res : CovLineList),
        xml ≠ "" → ext.covParse xml f2 rd = some res →
        (file2snippetM ext f1 f2 rd (some xml) lf g).2 = some res) ∧
    (file2snippetM ext0 "E" "F" Option.none Option.none Option.none
        (some ([1], some [1]))).1 ≠
      (file2snippetM ext0 "E" "F" Option.none Option.none Option.none Option.none).1 := by
  refine ⟨?_, ?_, ?_⟩
  · intro ext f1 f2 rd lf g
    simp [file2snippetM, pyTruthyStrOpt]
  · intro ext f1 f2 rd xml lf g res hxml hp
    simp [file2snippetM, pyTruthyStrOpt, hxml, hp]
  · decide

/-- C8 (witness): overwriting a previously set global with a freshly parsed
coverage report. -/
theorem c8_global_state_amended_witness :
    (file2snippetM ext0 "A" "B" Option.none (some "cov.xml") Option.none
        (some ([2], some [2]))).2 = some ([1], some [1]) :=
  c8_global_state_amended.2.1 ext0 "A" "B" Option.none "cov.xml" Option.none
    (some ([2], some [2])) ([1], some [1]) (by decide) rfl

@[simp]
theorem projLeft_nil : projLeft [] = [] := rfl

@[simp]
theorem projLeft_cons_some (n : Nat) (x : String) (rno : Option Nat) (rt : String)
    (ch : Bool) (rest : List MdiffRow) :
    projLeft (⟨some n, x, rno, rt, ch⟩ :: rest) = x :: projLeft rest := rfl

@[simp]
theorem projLeft_cons_none (lt : String) (rno : Option Nat) (rt : String)
    (ch : Bool) (rest : List MdiffRow) :
    projLeft (⟨Option.none, lt, rno, rt, ch⟩ :: rest) = projLeft rest := rfl

@[simp]
theorem projRight_nil : projRight [] = [] := rfl

@[simp]
theorem projRight_cons_some (lno : Option Nat) (lt : String) (m : Nat) (y : String)
    (ch : Bool) (rest : List MdiffRow) :
    projRight (⟨lno, lt, some m, y, ch⟩ :: rest) = y :: projRight rest := rfl

@[simp]
theorem projRight_cons_none (lno : Option Nat) (lt : String) (rt : String)
    (ch : Bool) (rest : List MdiffRow) :
    projRight (⟨lno, lt, Option.none, rt, ch⟩ :: rest) = projRight rest := rfl

@[simp]
theorem projLeft_append (xs ys : List MdiffRow) :
    projLeft (xs ++ ys) = projLeft xs ++ projLeft ys := by
  simp [projLeft]

@[simp]
theorem projRight_append (xs ys : List MdiffRow) :
    projRight (xs ++ ys) = projRight xs ++ projRight ys := by
  simp [projRight]

theorem projLeft_delRows (xs : List String) : ∀ la : Nat, projLeft (delRows la xs) = xs := by
  induction xs with
  | nil => intro la; rfl
  | cons x xs ih => intro la; simp [delRows, ih]

theorem projRight_delRows (xs : List String) : ∀ la : Nat, projRight (delRows la xs) = [] := by
  induction xs with
  | nil => intro la; rfl
  | cons x xs ih => intro la; simp [delRows, ih]

theorem projLeft_addRows (ys : List String) : ∀ lb : Nat, projLeft (addRows lb ys) = [] := by
  induction ys with
  | nil => intro lb; rfl
  | cons y ys ih => intro lb; simp [addRows, ih]

theorem projRight_addRows (ys : List String) : ∀ lb : Nat, projRight (addRows lb ys) = ys := by
  induction ys with
  | nil => intro lb; rfl
  | cons y ys ih => intro lb; simp [addRows, ih]

theorem replRows_nil_left (ys : List String) (la lb : Nat) :
    replRows la lb [] ys = addRows lb ys := by
  cases ys <;> rfl

theorem replRows_nil_right (xs : List String) (la lb : Nat) :
    replRows la lb xs [] = delRows la xs := by
  cases xs <;> rfl

theorem projLeft_replRows (xs : List String) :
    ∀ (ys : List String) (la lb : Nat), projLeft (replRows la lb xs ys) = xs := by
  induction xs with
  | nil => intro ys la lb; rw [replRows_nil_left]; exact projLeft_addRows ys lb
  | cons x xs ih =>
      intro ys la lb
      cases ys with
      | nil => rw [replRows_nil_right]; exact projLeft_delRows (x :: xs) la
      | cons y ys => simp [replRows, ih]

theorem projRight_replRows (ys : List String) :
    ∀ (xs : List String) (la lb : Nat), projRight (replRows la lb xs ys) = ys := by
  induction ys with
  | nil => intro xs la lb; rw [replRows_nil_right]; exact projRight_delRows xs la
  | cons y ys ih =>
      intro xs la lb
      cases xs with
      | nil => rw [replRows_nil_left]; exact projRight_addRows (y :: ys) lb
      | cons x xs => simp [replRows, ih]

theorem projLeft_equalRows (xs : List String) :
    ∀ (ys : List String) (la lb : Nat), xs.length = ys.length →
      projLeft (equalRows la lb xs ys) = xs := by
  induction xs with
  | nil => intro ys la lb h; cases ys with
      | nil => rfl
      | cons y ys => simp at h
  | cons x xs ih =>
      intro ys la lb h
      cases ys with
      | nil => simp at h
      | cons y ys =>
          simp only [List.length_cons, Nat.add_right_cancel_iff] at h
          simp [equalRows, ih ys (la + 1) (lb + 1) h]

theorem projRight_equalRows (xs : List String) :
    ∀ (ys : List String) (la lb : Nat), xs.length = ys.length →
      projRight (equalRows la lb xs ys) = ys := by
  induction xs with
  | nil => intro ys la lb h; cases ys with
      | nil => rfl
      | cons y ys => simp at h
  | cons x xs ih =>
      intro ys la lb h
      cases ys with
      | nil => simp at h
      | cons y ys =>
          simp only [List.length_cons, Nat.add_right_cancel_iff] at h
          simp [equalRows, ih ys (la + 1) (lb + 1) h]

@[simp]
theorem scriptLeftLen_nil : scriptLeftLen [] = 0 := rfl

@[simp]
theorem scriptLeftLen_cons (op : Op) (ops : List Op) :
    scriptLeftLen (op :: ops) = op.leftLen + scriptLeftLen ops := by
  simp [scriptLeftLen]

@[simp]
theorem scriptLeftLen_append (l1 l2 : List Op) :
    scriptLeftLen (l1 ++ l2) = scriptLeftLen l1 + scriptLeftLen l2 := by
  simp [scriptLeftLen]

@[simp]
theorem scriptRightLen_nil : scriptRightLen [] = 0 := rfl

@[simp]
theorem scriptRightLen_cons (op : Op) (ops : List Op) :
    scriptRightLen (op :: ops) = op.rightLen + scriptRightLen ops := by
  simp [scriptRightLen]

@[simp]
theorem scriptRightLen_append (l1 l2 : List Op) :
    scriptRightLen (l1 ++ l2) = scriptRightLen l1 + scriptRightLen l2 := by
  simp [scriptRightLen]

theorem projLeft_alignRows (ops : List Op) :
    ∀ (a b : List String) (la lb : Nat),
      scriptLeftLen ops = a.length → scriptRightLen ops = b.length →
      projLeft (alignRows la lb a b ops) = a := by
  induction ops with
  | nil =>
      intro a b la lb hL hR
      have : a = [] := by
        cases a with
        | nil => rfl
        | cons x xs => simp at hL
      subst this
      rfl
  | cons op rest ih =>
      intro a b la lb hL hR
      cases op with
      | equal k =>
          simp only [scriptLeftLen_cons, Op.leftLen] at hL
          simp only [scriptRightLen_cons, Op.rightLen] at hR
          simp only [alignRows, projLeft_append]
          rw [projLeft_equalRows _ _ _ _ (by simp [List.length_take]; omega),
            ih _ _ _ _ (by simp [List.length_drop]; omega) (by simp [List.length_drop]; omega)]
          exact List.take_append_drop k a
      | delete k =>
          simp only [scriptLeftLen_cons, Op.leftLen] at hL
          simp only [scriptRightLen_cons, Op.rightLen] at hR
          simp only [alignRows, projLeft_append]
          rw [projLeft_replRows,
            ih _ _ _ _ (by simp [List.length_drop]; omega) (by omega)]
          exact List.take_append_drop k a
      | insert k =>
          simp only [scriptLeftLen_cons, Op.leftLen] at hL
          simp only [scriptRightLen_cons, Op.rightLen] at hR
          simp only [alignRows, projLeft_append]
          rw [projLeft_replRows,
            ih _ _ _ _ (by omega) (by simp [List.length_drop]; omega)]
          rfl
      | replace m n =>
          simp only [scriptLeftLen_cons, Op.leftLen] at hL
          simp only [scriptRightLen_cons, Op.rightLen] at hR
          simp only [alignRows, projLeft_append]
          rw [projLeft_replRows,
            ih _ _ _ _ (by simp [List.length_drop]; omega) (by simp [List.length_drop]; omega)]
          exact List.take_append_drop m a

theorem projRight_alignRows (ops : List Op) :
    ∀ (a b : List String) (la lb : Nat),
      scriptLeftLen ops = a.length → scriptRightLen ops = b.length →
      projRight (alignRows la lb a b ops) = b := by
  induction ops with
  | nil =>
      intro a b la lb hL hR
      have : b = [] := by
        cases b with
        | nil => rfl
        | cons x xs => simp at hR
      subst this
      rfl
  | cons op rest ih =>
      intro a b la lb hL hR
      cases op with
      | equal k =>
          simp only [scriptLeftLen_cons, Op.leftLen] at hL
          simp only [scriptRightLen_cons, Op.rightLen] at hR
          simp only [alignRows, projRight_append]
          rw [projRight_equalRows _ _ _ _ (by simp [List.length_take]; omega),
            ih _ _ _ _ (by simp [List.length_drop]; omega) (by simp [List.length_drop]; omega)]
          exact List.take_append_drop k b
      | delete k =>
          simp only [scriptLeftLen_cons, Op.leftLen] at hL
          simp only [scriptRightLen_cons, Op.rightLen] at hR
          simp only [alignRows, projRight_append]
          rw [projRight_replRows,
            ih _ _ _ _ (by simp [List.length_drop]; omega) (by omega)]
          rfl
      | insert k =>
          simp only [scriptLeftLen_cons, Op.leftLen] at hL
          simp only [scriptRightLen_cons, Op.rightLen] at hR
          simp only [alignRows, projRight_append]
          rw [projRight_replRows,
            ih _ _ _ _ (by omega) (by simp [List.length_drop]; omega)]
          exact List.take_append_drop k b
      | replace m n =>
          simp only [scriptLeftLen_cons, Op.leftLen] at hL
          simp only [scriptRightLen_cons, Op.rightLen] at hR
          simp only [alignRows, projRight_append]
          rw [projRight_replRows,
            ih _ _ _ _ (by simp [List.length_drop]; omega) (by simp [List.length_drop]; omega)]
          exact List.take_append_drop n b

theorem commonPrefixLen_le_left (xs : List String) :
    ∀ ys : List String, commonPrefixLen xs ys ≤ xs.length := by
  induction xs with
  | nil => intro ys; cases ys <;> simp [commonPrefixLen]
  | cons x xs ih =>
      intro ys
      cases ys with
      | nil => simp [commonPrefixLen]
      | cons y ys =>
          by_cases h : x = y <;> simp [commonPrefixLen, h]
          exact ih ys

theorem commonPrefixLen_le_right (xs : List String) :
    ∀ ys : List String, commonPrefixLen xs ys ≤ ys.length := by
  induction xs with
  | nil => intro ys; cases ys <;> simp [commonPrefixLen]
  | cons x xs ih =>
      intro ys
      cases ys with
      | nil => simp [commonPrefixLen]
      | cons y ys =>
          by_cases h : x = y <;> simp [commonPrefixLen, h]
          exact ih ys

theorem commonPrefixLen_self (xs : List String) : commonPrefixLen xs xs = xs.length := by
  induction xs with
  | nil => rfl
  | cons x xs ih => simp [commonPrefixLen, ih]

theorem computeOpcodes_leftLen (a b : List String) :
    scriptLeftLen (computeOpcodes a b) = a.length := by
  have hp := commonPrefixLen_le_left a b
  have hs := commonPrefixLen_le_left (a.drop (commonPrefixLen a b)).reverse
    (b.drop (commonPrefixLen a b)).reverse
  simp only [List.length_reverse, List.length_drop] at hs
  simp only [computeOpcodes]
  split_ifs <;>
    simp_all [scriptLeftLen, Op.leftLen, List.length_drop] <;> omega

theorem computeOpcodes_rightLen (a b : List String) :
    scriptRightLen (computeOpcodes a b) = b.length := by
  have hp := commonPrefixLen_le_right a b
  have hs := commonPrefixLen_le_right (a.drop (commonPrefixLen a b)).reverse
    (b.drop (commonPrefixLen a b)).reverse
  simp only [List.length_reverse, List.length_drop] at hs
  simp only [computeOpcodes]
  split_ifs <;>
    simp_all [scriptRightLen, Op.rightLen, List.length_drop] <;> omega

/-- C3: row-order fidelity — for every pair of input line sequences,
projecting the aligner's row sequence onto its non-Absent left entries, in
row order, reproduces the "before" sequence exactly, and likewise the
non-Absent right entries reproduce the "after" sequence; at the
`getDiffDetails` level the same holds for the tab-expanded sequences the
aligner receives. -/
theorem c3_row_order_fidelity (a b : List String) :
    (projLeft (alignModel a b) = a ∧ projRight (alignModel a b) = b) ∧
    (projLeft (getDiffDetailsModel a b) = a.map (expand_tabs 8) ∧
      projRight (getDiffDetailsModel a b) = b.map (expand_tabs 8)) :=
  ⟨⟨projLeft_alignRows _ _ _ _ _ (computeOpcodes_leftLen a b) (computeOpcodes_rightLen a b),
    projRight_alignRows _ _ _ _ _ (computeOpcodes_leftLen a b) (computeOpcodes_rightLen a b)⟩,
   projLeft_alignRows _ _ _ _ _ (computeOpcodes_leftLen _ _) (computeOpcodes_rightLen _ _),
   projRight_alignRows _ _ _ _ _ (computeOpcodes_leftLen _ _) (computeOpcodes_rightLen _ _)⟩

theorem delRows_length (xs : List String) : ∀ la : Nat, (delRows la xs).length = xs.length := by
  induction xs with
  | nil => intro la; rfl
  | cons x xs ih => intro la; simp [delRows, ih]

theorem addRows_length (ys : List String) : ∀ lb : Nat, (addRows lb ys).length = ys.length := by
  induction ys with
  | nil => intro lb; rfl
  | cons y ys ih => intro lb; simp [addRows, ih]

theorem replRows_length (xs : List String) :
    ∀ (ys : List String) (la lb : Nat),
      (replRows la lb xs ys).length = max xs.length ys.length := by
  induction xs with
  | nil =>
      intro ys la lb
      rw [replRows_nil_left, addRows_length]
      simp
  | cons x xs ih =>
      intro ys la lb
      cases ys with
      | nil =>
          rw [replRows_nil_right, delRows_length]
          simp
      | cons y ys =>
          simp only [replRows, List.length_cons, ih]
          omega

theorem delRows_get? (i : Nat) :
    ∀ (xs : List String) (la : Nat), i < xs.length →
      (delRows la xs).get? i =
        some ⟨some (la + i + 1), xs.getD i "", Option.none, "\n", true⟩ := by
  induction i with
  | zero =>
      intro xs la h
      cases xs with
      | nil => simp at h
      | cons x xs => rfl
  | succ i ih =>
      intro xs la h
      cases xs with
      | nil => simp at h
      | cons x xs =>
          have h' : i < xs.length := by simp at h; omega
          rw [show (delRows la (x :: xs)).get? (i + 1) = (delRows (la + 1) xs).get? i from rfl,
            ih xs (la + 1) h']
          simp only [Option.some.injEq, MdiffRow.mk.injEq, List.getD_cons_succ, and_true, true_and]
          omega

theorem addRows_get? (i : Nat) :
    ∀ (ys : List String) (lb : Nat), i < ys.length →
      (addRows lb ys).get? i =
        some ⟨Option.none, "\n", some (lb + i + 1), ys.getD i "", true⟩ := by
  induction i with
  | zero =>
      intro ys lb h
      cases ys with
      | nil => simp at h
      | cons y ys => rfl
  | succ i ih =>
      intro ys lb h
      cases ys with
      | nil => simp at h
      | cons y ys =>
          have h' : i < ys.length := by simp at h; omega
          rw [show (addRows lb (y :: ys)).get? (i + 1) = (addRows (lb + 1) ys).get? i from rfl,
            ih ys (lb + 1) h']
          simp only [Option.some.injEq, MdiffRow.mk.injEq, List.getD_cons_succ, and_true, true_and]
          omega

theorem replRows_get?_pair (i : Nat) :
    ∀ (xs ys : List String) (la lb : Nat), i < xs.length → i < ys.length →
      (replRows la lb xs ys).get? i =
        some ⟨some (la + i + 1), xs.getD i "", some (lb + i + 1), ys.getD i "", true⟩ := by
  induction i with
  | zero =>
      intro xs ys la lb hx hy
      cases xs with
      | nil => simp at hx
      | cons x xs =>
          cases ys with
          | nil => simp at hy
          | cons y ys => rfl
  | succ i ih =>
      intro xs ys la lb hx hy
      cases xs with
      | nil => simp at hx
      | cons x xs =>
          cases ys with
          | nil => simp at hy
          | cons y ys =>
              have hx' : i < xs.length := by simp at hx; omega
              have hy' : i < ys.length := by simp at hy; omega
              rw [show (replRows la lb (x :: xs) (y :: ys)).get? (i + 1) =
                    (replRows (la + 1) (lb + 1) xs ys).get? i from rfl,
                ih xs ys (la + 1) (lb + 1) hx' hy']
              simp only [Option.some.injEq, MdiffRow.mk.injEq, List.getD_cons_succ, and_true, true_and]
              omega

theorem replRows_get?_left_excess (i : Nat) :
    ∀ (xs ys : List String) (la lb : Nat), ys.length ≤ i → i < xs.length →
      (replRows la lb xs ys).get? i =
        some ⟨some (la + i + 1), xs.getD i "", Option.none, "\n", true⟩ := by
  induction i with
  | zero =>
      intro xs ys la lb hy hx
      have hys : ys = [] := List.length_eq_zero.mp (Nat.le_zero.mp hy)
      subst hys
      rw [replRows_nil_right]
      exact delRows_get? 0 xs la hx
  | succ i ih =>
      intro xs ys la lb hy hx
      cases xs with
      | nil => simp at hx
      | cons x xs =>
          cases ys with
          | nil =>
              rw [replRows_nil_right]
              exact delRows_get? (i + 1) (x :: xs) la hx
          | cons y ys =>
              have hy' : ys.length ≤ i := by simp at hy; omega
              have hx' : i < xs.length := by simp at hx; omega
              rw [show (replRows la lb (x :: xs) (y :: ys)).get? (i + 1) =
                    (replRows (la + 1) (lb + 1) xs ys).get? i from rfl,
                ih xs ys (la + 1) (lb + 1) hy' hx']
              simp only [Option.some.injEq, MdiffRow.mk.injEq, List.getD_cons_succ, and_true, true_and]
              omega

theorem replRows_get?_right_excess (i : Nat) :
    ∀ (xs ys : List String) (la lb : Nat), xs.length ≤ i → i < ys.length →
      (replRows la lb xs ys).get? i =
        some ⟨Option.none, "\n", some (lb + i + 1), ys.getD i "", true⟩ := by
  induction i with
  | zero =>
      intro xs ys la lb hx hy
      have hxs : xs = [] := List.length_eq_zero.mp (Nat.le_zero.mp hx)
      subst hxs
      rw [replRows_nil_left]
      exact addRows_get? 0 ys lb hy
  | succ i ih =>
      intro xs ys la lb hx hy
      cases ys with
      | nil => simp at hy
      | cons y ys =>
          cases xs with
          | nil =>
              rw [replRows_nil_left]
              exact addRows_get? (i + 1) (y :: ys) lb hy
          | cons x xs =>
              have hx' : xs.length ≤ i := by simp at hx; omega
              have hy' : i < ys.length := by simp at hy; omega
              rw [show (replRows la lb (x :: xs) (y :: ys)).get? (i + 1) =
                    (replRows (la + 1) (lb + 1) xs ys).get? i from rfl,
                ih xs ys (la + 1) (lb + 1) hx' hy']
              simp only [Option.some.injEq, MdiffRow.mk.injEq, List.getD_cons_succ, and_true, true_and]
              omega

/-- C5: a replace block pairing `m` left lines with `n` right lines emits
exactly `max (m, n)` rows — index `i` below both lengths pairs `left[i]`
with `right[i]` as a change (classified Modified), the remaining indices
carry the exhausted side as Absent (classified Deleted when the right side
is exhausted, Added when the left side is); in particular
before=`["p","q"]`, after=`["p2"]` yields `(p, p2, Modified)` then
`(q, Absent, Deleted)`. -/
theorem c5_replace_block_rows (la lb : Nat) (xs ys : List String) :
    ((replRows la lb xs ys).length = max xs.length ys.length) ∧
    (∀ i, i < xs.length → i < ys.length →
        (replRows la lb xs ys).get? i =
          some ⟨some (la + i + 1), xs.getD i "", some (lb + i + 1), ys.getD i "", true⟩ ∧
        classify ⟨some (la + i + 1), xs.getD i "", some (lb + i + 1), ys.getD i "", true⟩ =
          ChangeKind.modified) ∧
    (∀ i, ys.length ≤ i → i < xs.length →
        (replRows la lb xs ys).get? i =
          some ⟨some (la + i + 1), xs.getD i "", Option.none, "\n", true⟩ ∧
        classify ⟨some (la + i + 1), xs.getD i "", Option.none, "\n", true⟩ =
          ChangeKind.deleted) ∧
    (∀ i, xs.length ≤ i → i < ys.length →
        (replRows la lb xs ys).get? i =
          some ⟨Option.none, "\n", some (lb + i + 1), ys.getD i "", true⟩ ∧
        classify ⟨Option.none, "\n", some (lb + i + 1), ys.getD i "", true⟩ =
          ChangeKind.added) ∧
    alignModel ["p", "q"] ["p2"] =
      [⟨some 1, "p", some 1, "p2", true⟩, ⟨some 2, "q", Option.none, "\n", true⟩] :=
  ⟨replRows_length xs ys la lb,
   fun i h1 h2 => ⟨replRows_get?_pair i xs ys la lb h1 h2, rfl⟩,
   fun i h1 h2 => ⟨replRows_get?_left_excess i xs ys la lb h1 h2, rfl⟩,
   fun i h1 h2 => ⟨replRows_get?_right_excess i xs ys la lb h1 h2, rfl⟩,
   by decide⟩

/-- C5 (witness): the two rows of the scenario replace block, read off via
the indexed characterization. -/
theorem c5_replace_block_rows_witness :
    (replRows 0 0 ["p", "q"] ["p2"]).get? 0 = some ⟨some 1, "p", some 1, "p2", true⟩ ∧
    (replRows 0 0 ["p", "q"] ["p2"]).get? 1 = some ⟨some 2, "q", Option.none, "\n", true⟩ := by
  have h := c5_replace_block_rows 0 0 ["p", "q"] ["p2"]
  refine ⟨?_, ?_⟩
  · have := (h.2.1 0 (by decide) (by decide)).1
    simpa using this
  · have := (h.2.2.1 1 (by decide) (by decide)).1
    simpa using this

theorem equalRows_length (xs : List String) :
    ∀ (ys : List String) (la lb : Nat),
      (equalRows la lb xs ys).length = min xs.length ys.length := by
  induction xs with
  | nil => intro ys la lb; cases ys <;> simp [equalRows]
  | cons x xs ih =>
      intro ys la lb
      cases ys with
      | nil => simp [equalRows]
      | cons y ys =>
          simp only [equalRows, List.length_cons, ih]
          omega

theorem equalRows_mem_shape (xs : List String) :
    ∀ (ys : List String) (la lb : Nat) (r : MdiffRow), r ∈ equalRows la lb xs ys →
      r.leftNo.isSome = true ∧ r.rightNo.isSome = true ∧ r.change = false ∧
        classify r = ChangeKind.unchanged := by
  induction xs with
  | nil => intro ys la lb r h; cases ys <;> simp [equalRows] at h
  | cons x xs ih =>
      intro ys la lb r h
      cases ys with
      | nil => simp [equalRows] at h
      | cons y ys =>
          simp only [equalRows, List.mem_cons] at h
          rcases h with h | h
          · subst h; exact ⟨rfl, rfl, rfl, rfl⟩
          · exact ih ys (la + 1) (lb + 1) r h

theorem commonPrefixLen_nil_left (ys : List String) : commonPrefixLen [] ys = 0 := by
  cases ys <;> rfl

theorem commonPrefixLen_nil_right (xs : List String) : commonPrefixLen xs [] = 0 := by
  cases xs <;> rfl

theorem computeOpcodes_self (l : List String) (h : l ≠ []) :
    computeOpcodes l l = [Op.equal l.length] := by
  simp only [computeOpcodes, commonPrefixLen_self, List.drop_length, List.reverse_nil,
    commonPrefixLen_nil_left, List.length_nil]
  simp [List.length_pos.mpr h]

theorem computeOpcodes_nil_left (b : List String) (h : b ≠ []) :
    computeOpcodes [] b = [Op.insert b.length] := by
  simp only [computeOpcodes, commonPrefixLen_nil_left, List.drop_zero, List.drop_nil,
    List.reverse_nil, List.length_nil]
  simp [commonPrefixLen_nil_left, List.length_pos.mpr h, h]

theorem computeOpcodes_nil_right (a : List String) (h : a ≠ []) :
    computeOpcodes a [] = [Op.delete a.length] := by
  simp only [computeOpcodes, commonPrefixLen_nil_right, List.drop_zero, List.drop_nil,
    List.reverse_nil, List.length_nil]
  simp [commonPrefixLen_nil_right, List.length_pos.mpr h, h]

theorem addRows_mem_shape (ys : List String) :
    ∀ (lb : Nat) (r : MdiffRow), r ∈ addRows lb ys →
      ∃ n y, r = ⟨Option.none, "\n", some n, y, true⟩ := by
  induction ys with
  | nil => intro lb r h; simp [addRows] at h
  | cons y ys ih =>
      intro lb r h
      simp only [addRows, List.mem_cons] at h
      rcases h with h | h
      · exact ⟨lb + 1, y, h⟩
      · exact ih (lb + 1) r h

theorem delRows_mem_shape (xs : List String) :
    ∀ (la : Nat) (r : MdiffRow), r ∈ delRows la xs →
      ∃ n x, r = ⟨some n, x, Option.none, "\n", true⟩ := by
  induction xs with
  | nil => intro la r h; simp [delRows] at h
  | cons x xs ih =>
      intro la r h
      simp only [delRows, List.mem_cons] at h
      rcases h with h | h
      · exact ⟨la + 1, x, h⟩
      · exact ih (la + 1) r h

theorem take_length_map (f : String → String) (l : List String) :
    List.take l.length (l.map f) = l.map f := by
  have hl : (l.map f).length = l.length := List.length_map l f
  rw [← hl, List.take_length]

/-- Helper for C7: the left gutter of a pure-addition row is the constant
blank `leftadd` span, whatever the coverage state and filter. -/
theorem leftGutter_added (cll : Option CovLineList) (lf : Option (List Nat))
    (n : Nat) (y : String) :
    getDiffLineNosRow true cll lf ⟨Option.none, "\n", some n, y, true⟩ =
      some "<span class=\"lineno_q lineno_leftadd\">  </span>" := rfl

/-- Helper for C7: the right gutter of a pure-deletion row is the constant
blank `rightdel` span, whatever the coverage state and filter — the absent
side's `'\n'` text always takes the blank-line branch of the coverage
block. -/
theorem rightGutter_deleted (cll : Option CovLineList) (lf : Option (List Nat))
    (n : Nat) (x : String) :
    getDiffLineNosRow false cll lf ⟨some n, x, Option.none, "\n", true⟩ =
      some "<span class=\"lineno_q lineno_rightdel \x7bcov\x7d\">  </span>" := by
  have hb : blankOrComment "\n" = true := by decide
  simp [getDiffLineNosRow, rightBaseSpan, hb]

/-- C6: comparing a line sequence against itself yields one row per line,
every row with both sides present, unmarked, and classified Unchanged. -/
theorem c6_self_compare (lines : List String) :
    (getDiffDetailsModel lines lines).length = lines.length ∧
    ∀ r ∈ getDiffDetailsModel lines lines,
      r.leftNo.isSome = true ∧ r.rightNo.isSome = true ∧ r.change = false ∧
        classify r = ChangeKind.unchanged := by
  by_cases hnil : lines = []
  · subst hnil
    constructor
    · rfl
    · intro r h
      simp [getDiffDetailsModel, alignModel, computeOpcodes, commonPrefixLen, alignRows] at h
  · have hmap : lines.map (expand_tabs 8) ≠ [] := by
      simpa [List.map_eq_nil_iff] using hnil
    have hops := computeOpcodes_self (lines.map (expand_tabs 8)) hmap
    have hrows : getDiffDetailsModel lines lines =
        equalRows 0 0 (lines.map (expand_tabs 8)) (lines.map (expand_tabs 8)) := by
      simp [getDiffDetailsModel, alignModel, hops, alignRows, take_length_map,
        List.drop_length]
    constructor
    · rw [hrows, equalRows_length]
      simp
    · intro r h
      rw [hrows] at h
      exact equalRows_mem_shape _ _ _ _ r h

/-- C6 (witness): the one-line self comparison. -/
theorem c6_self_compare_witness :
    (getDiffDetailsModel ["a"] ["a"]).length = (["a"] : List String).length ∧
    classify ⟨some 1, "a", some 1, "a", false⟩ = ChangeKind.unchanged := by
  have h := c6_self_compare ["a"]
  exact ⟨h.1, (h.2 ⟨some 1, "a", some 1, "a", false⟩ (by decide)).2.2.2⟩

/-- C7: with an empty "before" sequence and a non-empty "after" sequence,
every row of the diff is classified Added and every row's left gutter is
the blank (numberless) cell; symmetrically, with a non-empty "before" and
an empty "after", every row is Deleted and every row's right gutter is the
blank cell. -/
theorem c7_boundary (a b : List String) (cll : Option CovLineList)
    (lf : Option (List Nat)) (ha : a ≠ []) (hb : b ≠ []) :
    (∀ r ∈ getDiffDetailsModel [] b,
        classify r = ChangeKind.added ∧
        getDiffLineNosRow true cll lf r =
          some "<span class=\"lineno_q lineno_leftadd\">  </span>") ∧
    (∀ r ∈ getDiffDetailsModel a [],
        classify r = ChangeKind.deleted ∧
        getDiffLineNosRow false cll lf r =
          some "<span class=\"lineno_q lineno_rightdel \x7bcov\x7d\">  </span>") := by
  have hmb : b.map (expand_tabs 8) ≠ [] := by simpa [List.map_eq_nil_iff] using hb
  have hma : a.map (expand_tabs 8) ≠ [] := by simpa [List.map_eq_nil_iff] using ha
  constructor
  · intro r h
    have hrows : getDiffDetailsModel [] b = addRows 0 (b.map (expand_tabs 8)) := by
      simp [getDiffDetailsModel, alignModel, computeOpcodes_nil_left _ hmb, alignRows,
        take_length_map, replRows_nil_left]
    rw [hrows] at h
    obtain ⟨n, y, rfl⟩ := addRows_mem_shape _ _ _ h
    exact ⟨rfl, leftGutter_added cll lf n y⟩
  · intro r h
    have hrows : getDiffDetailsModel a [] = delRows 0 (a.map (expand_tabs 8)) := by
      simp [getDiffDetailsModel, alignModel, computeOpcodes_nil_right _ hma, alignRows,
        take_length_map, replRows_nil_right]
    rw [hrows] at h
    obtain ⟨n, x, rfl⟩ := delRows_mem_shape _ _ _ h
    exact ⟨rfl, rightGutter_deleted cll lf n x⟩

/-- C7 (witness): the single added row of comparing nothing against one
line, and the single deleted row of the reverse comparison. -/
theorem c7_boundary_witness :
    (classify ⟨Option.none, "\n", some 1, "b", true⟩ = ChangeKind.added ∧
      getDiffLineNosRow true Option.none Option.none ⟨Option.none, "\n", some 1, "b", true⟩ =
        some "<span class=\"lineno_q lineno_leftadd\">  </span>") ∧
    (classify ⟨some 1, "a", Option.none, "\n", true⟩ = ChangeKind.deleted ∧
      getDiffLineNosRow false Option.none Option.none ⟨some 1, "a", Option.none, "\n", true⟩ =
        some "<span class=\"lineno_q lineno_rightdel \x7bcov\x7d\">  </span>") := by
  have h := c7_boundary ["a"] ["b"] Option.none Option.none (by decide) (by decide)
  exact ⟨h.1 ⟨Option.none, "\n", some 1, "b", true⟩ (by decide),
    h.2 ⟨some 1, "a", Option.none, "\n", true⟩ (by decide)⟩
